import Mathlib

/-!
Verification of the tgo event-aggregation core (src/tgo.go) against its
natural-language specification.  The Go source is shallowly embedded:
strings are Lean `String`s, float64 elapsed times are `Rat`, Go maps
(`TestStorage`) are association lists in arrival order, and the ANSI color
wrappers (`fatih/color` SprintFuncs) are modelled as the identity on text,
since they only decorate rendered output.
-/

namespace Tgo

/-! ## String helpers (models of the Go `strings` package functions used) -/

/-- Model of `strings.TrimLeft(s, " ")` at the character-list level:
drop leading space characters only. -/
def trimLeftSpacesL (l : List Char) : List Char := l.dropWhile (fun c => c = ' ')

/-- Model of `strings.TrimLeft(s, " ")`. -/
def trimLeftSpaces (s : String) : String := ⟨trimLeftSpacesL s.data⟩

/-- Model of `strings.TrimSpace` at the character-list level: drop leading
and trailing whitespace. -/
def trimSpaceL (l : List Char) : List Char :=
  ((l.dropWhile Char.isWhitespace).reverse.dropWhile Char.isWhitespace).reverse

/-- Model of `strings.TrimSpace`. -/
def trimSpace (s : String) : String := ⟨trimSpaceL s.data⟩

/-- Character-list test that the first argument starts the second. -/
def listIsPrefix : List Char → List Char → Bool
  | [], _ => true
  | _ :: _, [] => false
  | a :: as, b :: bs => a == b && listIsPrefix as bs

/-- Model of `strings.HasPrefix`. -/
def strHasPrefix (s pre : String) : Bool := listIsPrefix pre.data s.data

/-- Model of `strings.HasSuffix`. -/
def strHasSuffix (s suf : String) : Bool := listIsPrefix suf.data.reverse s.data.reverse

/-- Model of `strings.TrimPrefix`: drop the leading occurrence when present,
otherwise return the string unchanged. -/
def trimPrefixStr (s pre : String) : String :=
  if strHasPrefix s pre then ⟨s.data.drop pre.data.length⟩ else s

/-- Model of `strings.TrimSuffix`. -/
def trimSuffixStr (s suf : String) : String :=
  if strHasSuffix s suf then ⟨s.data.take (s.data.length - suf.data.length)⟩ else s

/-- Character-list substring test: does the needle occur contiguously in the
haystack? -/
def listHasInfix (needle : List Char) : List Char → Bool
  | [] => needle.isEmpty
  | c :: t => listIsPrefix needle (c :: t) || listHasInfix needle t

/-- Model of `strings.Contains`. -/
def strContainsSub (hay needle : String) : Bool := listHasInfix needle.data hay.data

/-! ## Natural string order (model of github.com/maruel/natural.Less) -/

/-- Decimal value of a run of digit characters. -/
def digitsToNat (l : List Char) : Nat := l.foldl (fun n c => n * 10 + (c.toNat - 48)) 0

/-- Fuel-indexed worker for the natural comparison: byte-wise comparison,
except that maximal runs of digits on both sides are compared by numeric
value.  The fuel strictly bounds the number of characters consumed. -/
def natLessFuel : Nat → List Char → List Char → Bool
  | 0, _, _ => false
  | _ + 1, [], [] => false
  | _ + 1, [], _ :: _ => true
  | _ + 1, _ :: _, [] => false
  | fuel + 1, a :: as, b :: bs =>
    if a.isDigit && b.isDigit then
      let na := digitsToNat ((a :: as).takeWhile Char.isDigit)
      let nb := digitsToNat ((b :: bs).takeWhile Char.isDigit)
      if na < nb then true
      else if nb < na then false
      else natLessFuel fuel ((a :: as).dropWhile Char.isDigit) ((b :: bs).dropWhile Char.isDigit)
    else if a = b then natLessFuel fuel as bs
    else decide (a < b)

/-- Model of `natural.Less` (github.com/maruel/natural): natural ("human")
string ordering, treating digit runs as decimal numbers. -/
def naturalLess (a b : String) : Bool :=
  natLessFuel (a.data.length + b.data.length + 1) a.data b.data

/-! ## Actions and statuses (tgo.go lines 40-84, 218-324) -/

abbrev Action := String
abbrev Status := String

def ActionRun : Action := "run"
def ActionPause : Action := "pause"
def ActionCont : Action := "cont"
def ActionPass : Action := "pass"
def ActionBench : Action := "bench"
def ActionFail : Action := "fail"
def ActionOutput : Action := "output"
def ActionSkip : Action := "skip"

def StatusPass : Status := "pass"
def StatusFail : Status := "fail"
def StatusSkip : Status := "skip"
def StatusBench : Status := "bench"
def StatusNone : Status := "none"

/-- `EndingActions` of tgo.go line 55, in source order. -/
def endingActions : List Action := [ActionFail, ActionSkip, ActionPass, ActionBench]

/-- Model of `statusNames` (tgo.go lines 77-83); a missing key in the Go map
yields the empty string. -/
def statusName (s : Status) : String :=
  if s = StatusFail then "FAIL"
  else if s = StatusPass then "PASS"
  else if s = StatusNone then "NONE"
  else if s = StatusSkip then "SKIP"
  else if s = StatusBench then "BENCH"
  else ""

/-- Model of `Status.IsAction` (tgo.go lines 249-266). -/
def Status.IsAction (s : Status) (a : Action) : Bool :=
  if a = ActionBench then decide (s = StatusBench)
  else if a = ActionPass then decide (s = StatusPass)
  else if a = ActionFail then decide (s = StatusFail)
  else if a = ActionSkip then decide (s = StatusSkip)
  else false

abbrev Statuses := List Status

/-- Model of `Statuses.HasAction` (tgo.go lines 283-290). -/
def Statuses.HasAction (ss : Statuses) (a : Action) : Bool :=
  ss.any (fun s => Status.IsAction s a)

/-! ## Event model (tgo.go lines 326-375) -/

/-- Model of the `Event` record (tgo.go lines 338-345).  `Time` stands for
the RFC3339 timestamp (only its order matters), `Elapsed` models the float64
seconds as an exact rational. -/
structure Event where
  Time : Nat
  Action : String
  Package : String
  Test : String
  Elapsed : Rat
  Output : String
deriving DecidableEq

/-- Model of the `Key` type (tgo.go lines 354-358). -/
structure Key where
  Package : String
  Test : String
deriving DecidableEq

/-- Model of `Key.String()` (tgo.go lines 360-365): the display name. -/
def Key.display (k : Key) : String :=
  if k.Test = "" then k.Package else k.Package ++ "." ++ k.Test

/-- Model of `Event.Key()` (tgo.go lines 347-352). -/
def Event.Key (e : Event) : Key := ⟨e.Package, e.Test⟩

abbrev Events := List Event

/-- Model of `Events.Status` (tgo.go lines 377-395): scan in order; the
first fail/pass/skip/bench event decides, otherwise `none`. -/
def Events.Status : Events → Status
  | [] => StatusNone
  | e :: es =>
    if e.Action = ActionFail then StatusFail
    else if e.Action = ActionPass then StatusPass
    else if e.Action = ActionSkip then StatusSkip
    else if e.Action = ActionBench then StatusBench
    else Events.Status es

/-- Model of `Events.FindFirstByAction` (tgo.go lines 397-404). -/
def Events.FindFirstByAction (es : Events) (actions : List Action) : Option Event :=
  es.find? (fun e => decide (e.Action ∈ actions))

/-! ## Number formatting (model of fmt's %.2f on the exact rational value) -/

/-- The rational one half, as an irreducible fraction literal. -/
def ratHalf : Rat := ⟨1, 2, by norm_num, by norm_num⟩

/-- The rational 1/100: the exact value of the source's `0.01` threshold,
as an irreducible fraction literal. -/
def ratCent : Rat := ⟨1, 100, by norm_num, by norm_num⟩

/-- Model of `fmt.Sprintf("%.2f", x)`: round to two decimals, ties to even,
and render with exactly two fractional digits. -/
def fmtF2 (q : Rat) : String :=
  let isNeg : Bool := decide (q < 0)
  let a : Rat := if q < 0 then -q else q
  let scaled : Rat := a * 100
  let fl : Int := scaled.floor
  let frac : Rat := scaled - (fl : Rat)
  let n : Int :=
    if frac > ratHalf then fl + 1
    else if frac < ratHalf then fl
    else if fl % 2 = 0 then fl else fl + 1
  let m : Nat := n.toNat
  (if isNeg then "-" else "") ++ toString (m / 100) ++ "." ++
    (if m % 100 < 10 then "0" else "") ++ toString (m % 100)

/-! ## Compactor (tgo.go lines 412-462) -/

/-- Elapsed seconds of the first event with the given action, zero when
absent: the `passedAt`/`failedAt`/`skippedAt` values of `Events.Compact`
(tgo.go lines 414-430), which default to float64 zero. -/
def elapsedOfFirst (es : Events) (a : Action) : Rat :=
  match Events.FindFirstByAction es [a] with
  | some e => e.Elapsed
  | none => 0

/-- The removal condition of the `Events.Compact` loop (tgo.go lines
435-458): lifecycle actions, per-test framework banners (using the elapsed
time of the first terminal event of each kind), and package-level
boilerplate lines. -/
def noiseEvent (failedAt passedAt skippedAt : Rat) (e : Event) : Bool :=
  decide (e.Action = "run") ||
  decide (e.Action = "cont") ||
  decide (e.Action = "pause") ||
  (decide (e.Action = "output") && decide (e.Test ≠ "") &&
    (decide (trimLeftSpaces e.Output = "=== RUN   " ++ e.Test ++ "\n") ||
     decide (trimLeftSpaces e.Output = "=== CONT  " ++ e.Test ++ "\n") ||
     decide (trimLeftSpaces e.Output = "=== PAUSE " ++ e.Test ++ "\n") ||
     decide (trimLeftSpaces e.Output = "--- FAIL: " ++ e.Test ++ " (" ++ fmtF2 failedAt ++ "s)\n") ||
     decide (trimLeftSpaces e.Output = "--- SKIP: " ++ e.Test ++ " (" ++ fmtF2 skippedAt ++ "s)\n") ||
     decide (trimLeftSpaces e.Output = "--- PASS: " ++ e.Test ++ " (" ++ fmtF2 passedAt ++ "s)\n"))) ||
  (decide (e.Action = "output") && decide (e.Package ≠ "") && decide (e.Test = "") &&
    (strHasPrefix (trimLeftSpaces e.Output) ("ok  \t" ++ e.Package) ||
     strHasSuffix (trimLeftSpaces e.Output) ("[no test files]\n") ||
     decide (trimLeftSpaces e.Output = "ok   " ++ e.Package ++ "\n") ||
     decide (trimLeftSpaces e.Output = "PASS\n") ||
     decide (trimLeftSpaces e.Output = "FAIL\n") ||
     decide (trimLeftSpaces e.Output = "testing: warning: no tests to run\n") ||
     strHasPrefix (trimSpace e.Output) ("FAIL\t" ++ e.Package ++ "\t") ||
     (strHasPrefix (trimSpace e.Output) ("coverage:") &&
      strHasSuffix (trimSpace e.Output) ("of statements"))))

/-- Model of `Events.Compact` (tgo.go lines 412-462): keep exactly the
events the loop appends, i.e. those not matching the removal condition. -/
def Events.Compact (es : Events) : Events :=
  es.filter (fun e =>
    !(noiseEvent (elapsedOfFirst es ActionFail) (elapsedOfFirst es ActionPass)
        (elapsedOfFirst es ActionSkip) e))

/-- Model of `Events.IsPackageWithoutTest` (tgo.go lines 464-476). -/
def Events.IsPackageWithoutTest (es : Events) : Bool :=
  es.any (fun e =>
    decide (e.Action = ActionOutput) && decide (e.Package ≠ "") && decide (e.Test = "") &&
    strHasSuffix (trimLeftSpaces e.Output) ("[no test files]\n"))

/-! ## Coverage extraction (tgo.go lines 478-498) -/

/-- The scan loop of `Events.FindCoverage` (tgo.go lines 485-496): the first
output event whose trimmed text has the coverage shape yields the embedded
percentage. -/
def Events.FindCovLoop : Events → String
  | [] => ""
  | e :: rest =>
    if e.Action ≠ ActionOutput then Events.FindCovLoop rest
    else if strHasPrefix (trimSpace e.Output) ("coverage: ") &&
            strHasSuffix (trimSpace e.Output) (" of statements") then
      trimSpace (trimSuffixStr (trimPrefixStr (trimSpace e.Output) ("coverage:")) ("of statements"))
    else Events.FindCovLoop rest

/-- Model of `Events.FindCoverage` (tgo.go lines 478-498). -/
def Events.FindCoverage : Events → String
  | [] => ""
  | e₀ :: rest =>
    if e₀.Package = "" ∨ e₀.Test ≠ "" then "" else Events.FindCovLoop (e₀ :: rest)

/-- An output event with the coverage shape: the events the
`Events.FindCoverage` loop can stop at. -/
def covPattern (e : Event) : Bool :=
  decide (e.Action = ActionOutput) &&
  strHasPrefix (trimSpace e.Output) ("coverage: ") &&
  strHasSuffix (trimSpace e.Output) (" of statements")

/-! ## The verbosity gate of Events.PrintDetail (tgo.go lines 500-510) -/

/-- The compaction stage of `Events.PrintDetail` (tgo.go lines 504-507):
below or at verbosity 3 the displayed sequence is the compacted clone, above
it the sequence is used unmodified. -/
def compactStage (v : Int) (es : Events) : Events :=
  if v ≤ 3 then Events.Compact es else es

/-! ## Unit store (tgo.go lines 600-739) -/

/-- Model of `TestStorage` (tgo.go line 600): a Go map from `Key` to
`Events`, embedded as an association list in arrival order of the keys. -/
abbrev TestStorage := List (Key × Events)

/-- The keys of a store, in the order of the underlying association list. -/
def TestStorage.keys (ts : TestStorage) : List Key := ts.map Prod.fst

/-- Model of `ts[key]`: Go map lookup, the nil slice when absent. -/
def lookupEvents (ts : TestStorage) (k : Key) : Events :=
  match ts.find? (fun kv => decide (kv.1 = k)) with
  | some kv => kv.2
  | none => []

/-- Model of `TestStorage.Append` (tgo.go lines 618-624): push the event
onto its key's sequence, creating the key (at the end, in arrival order)
when absent. -/
def TestStorage.Append : TestStorage → Event → TestStorage
  | [], e => [(Event.Key e, [e])]
  | (k, es) :: rest, e =>
    if k = Event.Key e then (k, es ++ [e]) :: rest
    else (k, es) :: TestStorage.Append rest e

/-- Model of `TestStorage.FindByAction` (tgo.go lines 678-690): keep units
whose sequence has at least one event with the action. -/
def TestStorage.FindByAction (ts : TestStorage) (action : Action) : TestStorage :=
  ts.filter (fun kv => kv.2.any (fun e => decide (e.Action = action)))

/-- Model of `TestStorage.FilterAction` (tgo.go lines 692-708): keep units
whose sequence has no event with any of the actions. -/
def TestStorage.FilterAction (ts : TestStorage) (actions : List Action) : TestStorage :=
  ts.filter (fun kv => !(kv.2.any (fun e => decide (e.Action ∈ actions))))

/-- Model of `TestStorage.FindPackageResults` (tgo.go lines 644-652):
package-level units only. -/
def TestStorage.FindPackageResults (ts : TestStorage) : TestStorage :=
  ts.filter (fun kv => decide (kv.1.Test = ""))

/-- Model of `TestStorage.FilterPackageResults` (tgo.go lines 634-642):
per-test units only. -/
def TestStorage.FilterPackageResults (ts : TestStorage) : TestStorage :=
  ts.filter (fun kv => decide (kv.1.Test ≠ ""))

/-- Model of `TestStorage.FindPackageTests` (tgo.go lines 666-676). -/
def TestStorage.FindPackageTests (ts : TestStorage) (name : String) : TestStorage :=
  ts.filter (fun kv => decide (name = kv.1.Package))

/-- Model of `TestStorage.FilterKeys` (tgo.go lines 654-664). -/
def TestStorage.FilterKeys (ts : TestStorage) (exclude : Key → Bool) : TestStorage :=
  ts.filter (fun kv => !(exclude kv.1))

/-- Model of `TestStorage.CountTests` (tgo.go lines 737-739). -/
def TestStorage.CountTests (ts : TestStorage) : Nat :=
  (TestStorage.FilterPackageResults ts).length

/-- Model of `TestStorage.FilterNotests` (tgo.go lines 725-735). -/
def TestStorage.FilterNotests (ts : TestStorage) : TestStorage :=
  ts.filter (fun kv => !(Events.IsPackageWithoutTest kv.2))

/-- Model of `TestStorage.WithCoverage` (tgo.go lines 710-723). -/
def TestStorage.WithCoverage (ts : TestStorage) : TestStorage :=
  ts.filter (fun kv =>
    decide (kv.1.Test = "") && decide (kv.1.Package ≠ "") &&
    decide (Events.FindCoverage kv.2 ≠ ""))

/-! ## Key ordering (tgo.go lines 602-616)

`OrderedKeys` collects the map's keys (Go map iteration order is
unspecified, so the association-list order here stands for one arbitrary
iteration order) and sorts them with `sort.SliceStable`.  For slices of at
most 20 elements Go's `sort.SliceStable` is exactly one insertion-sort
block, embedded below as `insertionSortGo`: each element bubbles leftwards
past its predecessor while the comparator says it is less. -/

/-- One insertion step of Go's stable insertion sort, on the reversed
already-sorted segment (head = last element): the new element moves past
each predecessor while `less new pred` holds. -/
def insertRev (less : Key → Key → Bool) (x : Key) : List Key → List Key
  | [] => [x]
  | y :: ys => if less x y then y :: insertRev less x ys else x :: y :: ys

/-- Go's `insertionSort` (the whole of `sort.SliceStable` for at most 20
elements), via `insertRev` on the reversed prefix. -/
def insertionSortGo (less : Key → Key → Bool) (l : List Key) : List Key :=
  (l.foldl (fun acc x => insertRev less x acc) []).reverse

/-- The comparator closure of `TestStorage.OrderedKeys` (tgo.go lines
607-613): same package with one package-level key compares by test-name
length (longer first), otherwise natural order of the display names. -/
def keyLess (a b : Key) : Bool :=
  if a.Package = b.Package ∧ (a.Test = "" ∨ b.Test = "") then
    decide (a.Test.length > b.Test.length)
  else
    naturalLess (Key.display a) (Key.display b)

/-- Model of `TestStorage.OrderedKeys` (tgo.go lines 602-616). -/
def TestStorage.OrderedKeys (ts : TestStorage) : List Key :=
  insertionSortGo keyLess (TestStorage.keys ts)

/-! ## Summary renderers (tgo.go lines 741-825)

Rendered lines are modelled as the strings printed per key; the color
SprintFuncs are the identity on their text. -/

/-- Model of `fmt.Sprintf("%6s", s)`: left-pad with spaces to width 6. -/
def padStart6 (s : String) : String :=
  if 6 ≤ s.length then s else ⟨List.replicate (6 - s.length) ' '⟩ ++ s

/-- The elapsed tag of the summary renderers (tgo.go lines 756-759 and
797-800): present when the first terminal event exists and its elapsed time
is at least 0.01 seconds. -/
def elapsedTag (events : Events) : String :=
  match Events.FindFirstByAction events endingActions with
  | some fe => if ratCent ≤ fe.Elapsed then "  (" ++ fmtF2 fe.Elapsed ++ "s)" else ""
  | none => ""

/-- The `[no tests]` tag (tgo.go lines 765-768 and 802-805). -/
def notestsTag (events : Events) : String :=
  if Events.IsPackageWithoutTest events then "  [no tests]" else ""

/-- The coverage tag (tgo.go lines 770-774 and 806-810); the braces around
the percentage are written escaped. -/
def coverageTag (events : Events) : String :=
  if Events.FindCoverage events ≠ "" then
    "  \x7b" ++ Events.FindCoverage events ++ "\x7d"
  else ""

/-- One line of `TestStorage.PrintSummary` (tgo.go lines 792-824): status
prefix, package (with `.test` for per-test keys), elapsed tag, and for
package-level keys the no-tests and coverage tags.  No test count is
emitted. -/
def summaryLine (status : Status) (ts : TestStorage) (key : Key) : String :=
  if key.Test = "" then
    padStart6 (statusName status) ++ " " ++ key.Package ++
      elapsedTag (lookupEvents ts key) ++ notestsTag (lookupEvents ts key) ++
      coverageTag (lookupEvents ts key) ++ "\n"
  else
    padStart6 (statusName status) ++ " " ++ key.Package ++ "." ++ key.Test ++
      elapsedTag (lookupEvents ts key) ++ "\n"

/-- One line of `TestStorage.PrintShortSummary` (tgo.go lines 751-781):
status prefix, package, elapsed tag, the `<N tests>` count of the package's
test units, then the no-tests and coverage tags. -/
def shortSummaryLine (status : Status) (ts : TestStorage) (key : Key) : String :=
  padStart6 (statusName status) ++ " " ++ key.Package ++
    elapsedTag (lookupEvents ts key) ++
    ("   " ++ "<" ++ toString (TestStorage.CountTests (TestStorage.FindPackageTests ts key.Package)) ++ " tests>") ++
    notestsTag (lookupEvents ts key) ++ coverageTag (lookupEvents ts key) ++ "\n"

/-- The header rule line of both summary renderers (tgo.go lines 750 and 791). -/
def summaryHeader (status : Status) : String :=
  "════════════ " ++ statusName status ++ " ════════════"

/-- Model of `TestStorage.PrintSummary` (tgo.go lines 784-825) as the list
of printed lines: header, then one line per ordered key of the store. -/
def printSummaryLines (status : Status) (ts : TestStorage) : List String :=
  summaryHeader status :: (TestStorage.OrderedKeys ts).map (summaryLine status ts)

/-- Model of `TestStorage.PrintShortSummary` (tgo.go lines 741-782) as the
list of printed lines: header, then one line per ordered package-level key,
with events and counts looked up in the full store. -/
def printShortSummaryLines (status : Status) (ts : TestStorage) : List String :=
  summaryHeader status ::
    (TestStorage.OrderedKeys (TestStorage.FindPackageResults ts)).map (shortSummaryLine status ts)

/-! ## Stream driver (tgo.go lines 917-1086) -/

/-- The per-event state of the scanning loop of `run` (tgo.go lines
947-967): the store, the `printed` marker set, and the log of keys printed
immediately, in print order. -/
structure ScanState where
  tests : TestStorage
  printed : List Key
  prints : List Key

/-- One iteration of the scanning loop (tgo.go lines 953-967): append the
decoded event; when its key is unmarked and its action is requested by the
`Results` statuses, print the unit immediately (logged in `prints`) and
mark the key. -/
def scanStep (results : Statuses) (st : ScanState) (e : Event) : ScanState :=
  let tests := TestStorage.Append st.tests e
  if ¬ (Event.Key e ∈ st.printed) ∧ Statuses.HasAction results e.Action = true then
    ⟨tests, Event.Key e :: st.printed, st.prints ++ [Event.Key e]⟩
  else
    ⟨tests, st.printed, st.prints⟩

/-- The whole scanning phase over the decoded event arrivals. -/
def scanRun (results : Statuses) (events : List Event) : ScanState :=
  events.foldl (scanStep results) ⟨[], [], []⟩

/-- The store handed to the skip-status grouped summary (tgo.go lines
988-1006): units with a skip event, additionally stripped of no-test
packages when verbosity is at most 3. -/
def skipSummaryInput (v : Int) (tests : TestStorage) : TestStorage :=
  if v ≤ 3 then TestStorage.FilterNotests (TestStorage.FindByAction tests ActionSkip)
  else TestStorage.FindByAction tests ActionSkip

/-! ## Process exit propagation (tgo.go lines 848-852, 907-914, 1078-1085) -/

/-- The outcome of `cmd.Wait()` as `run` inspects it: no error, an
`exec.ExitError` (with whether the process exited and its exit code), or
any other error. -/
inductive WaitResult where
  | ok : WaitResult
  | exitErr (exited : Bool) (code : Int) : WaitResult
  | otherErr : WaitResult

/-- The tail of `run` (tgo.go lines 1078-1085): an `exec.ExitError` from a
process that exited becomes `ExitError(code)`, anything else yields no
error. -/
def runExitOutcome : WaitResult → Option Int
  | .exitErr true code => some code
  | _ => none

/-- The error handling of `main` (tgo.go lines 907-914) on `run`'s
`ExitError` path: `os.Exit` with the carried code, or a normal exit 0. -/
def mainExitCode : Option Int → Int
  | some code => code
  | none => 0

/-- The whole propagation: the process's wait outcome to the core's own
exit status. -/
def coreExitCode (w : WaitResult) : Int := mainExitCode (runExitOutcome w)

/-! ## Definitions written from the spec's words, for refinement claims -/

/-- Modelled from the spec: "scanning the sequence in order and returning
the status of the first event whose action is one of 'fail, pass, skip,
bench'; if no such event exists, status is none" (spec section 3).  In the
source a terminal status is the string of its action, so the status of such
an event is its action. -/
def specStatus (es : Events) : Status :=
  match es.find? (fun e => decide (e.Action ∈ endingActions)) with
  | some e => e.Action
  | none => StatusNone

/-! ## Concrete fixtures used by the claims -/

/-- A terminal event with the given action, package and test; zero time,
zero elapsed, empty output. -/
def mkEv (a pkg t : String) : Event := ⟨0, a, pkg, t, 0, ""⟩

/-- The scenario store of the spec (section 8): test units `a.T1` (fail)
and `a.T2` (pass) plus package unit `a` (pass). -/
def scenarioStore : TestStorage :=
  [(⟨"a", "T1"⟩, [mkEv "fail" "a" "T1"]),
   (⟨"a", "T2"⟩, [mkEv "pass" "a" "T2"]),
   (⟨"a", ""⟩, [mkEv "pass" "a" ""])]

/-- A package-level output event carrying the given output text. -/
def covEv (out : String) : Event := ⟨0, "output", "p", "", 0, out⟩

/-- The events of a skipped package without test files. -/
def notestsEvents : Events :=
  [mkEv "skip" "p" "", ⟨0, "output", "p", "", 0, "ok   p [no test files]\n"⟩]

/-- A store holding one skipped no-test package. -/
def notestsStore : TestStorage := [(⟨"p", ""⟩, notestsEvents)]

/-- A sequence whose only coverage line reports 87.3%. -/
def covOnlyEvents : Events := [covEv "coverage: 87.3% of statements\n"]

/-- A sequence with two coverage lines; the 87.3% line is not the first. -/
def twoCovEvents : Events :=
  [covEv "coverage: 10.0% of statements\n", covEv "coverage: 87.3% of statements\n"]

/-! ## Helper lemmas -/

/-- Two strings with the same character data are equal. -/
theorem strExt (a b : String) (h : a.data = b.data) : a = b := by
  cases a with
  | mk d₁ => cases b with
    | mk d₂ => exact congrArg String.mk h

/-- String append concatenates the character data. -/
theorem strData_append (a b : String) : (a ++ b).data = a.data ++ b.data := rfl

/-- `Events.Status` is the first-terminal-event scan of the specification. -/
theorem status_find_eq (es : Events) : Events.Status es = specStatus es := by
  induction es with
  | nil => rfl
  | cons e es ih =>
    by_cases hf : e.Action = ActionFail
    · simp [Events.Status, specStatus, List.find?_cons, hf, endingActions,
        ActionFail, ActionSkip, ActionPass, ActionBench, StatusFail]
    · by_cases hp : e.Action = ActionPass
      · simp [Events.Status, specStatus, List.find?_cons, hp, hf, endingActions,
          ActionFail, ActionSkip, ActionPass, ActionBench, StatusPass]
      · by_cases hs : e.Action = ActionSkip
        · simp [Events.Status, specStatus, List.find?_cons, hs, hf, hp, endingActions,
            ActionFail, ActionSkip, ActionPass, ActionBench, StatusSkip]
        · by_cases hb : e.Action = ActionBench
          · simp [Events.Status, specStatus, List.find?_cons, hb, hf, hp, hs, endingActions,
              ActionFail, ActionSkip, ActionPass, ActionBench, StatusBench]
          · have hmem : ¬ e.Action ∈ endingActions := by
              simp only [endingActions, ActionFail, ActionSkip, ActionPass, ActionBench,
                List.mem_cons, List.not_mem_nil, or_false, not_or]
              exact ⟨hf, hs, hp, hb⟩
            simp only [Events.Status, if_neg hf, if_neg hp, if_neg hs, if_neg hb, ih]
            unfold specStatus
            rw [List.find?_cons_of_neg _ (by simpa using hmem)]

/-- `find?` commutes with a filter whose predicate is implied by the search
predicate. -/
theorem find?_filter_imp {α : Type} (p q : α → Bool) (l : List α)
    (h : ∀ a, q a = true → p a = true) :
    (l.filter p).find? q = l.find? q := by
  induction l with
  | nil => rfl
  | cons x l ih =>
    rw [List.filter_cons]
    by_cases hq : q x = true
    · rw [if_pos (h x hq), List.find?_cons_of_pos _ hq, List.find?_cons_of_pos _ hq]
    · by_cases hp : p x = true
      · rw [if_pos hp, List.find?_cons_of_neg _ hq, List.find?_cons_of_neg _ hq]
        exact ih
      · rw [if_neg hp, ih, List.find?_cons_of_neg _ hq]

/-- The removal condition of the compactor never matches an event with a
terminal action. -/
theorem noise_not_ending (f p s : Rat) (e : Event) (h : e.Action ∈ endingActions) :
    noiseEvent f p s e = false := by
  simp only [endingActions, ActionFail, ActionSkip, ActionPass, ActionBench,
    List.mem_cons, List.not_mem_nil, or_false] at h
  rcases h with h | h | h | h <;> simp [noiseEvent, h]

/-- Inserting with `insertRev` permutes the element into the list. -/
theorem insertRev_perm (less : Key → Key → Bool) (x : Key) (l : List Key) :
    List.Perm (insertRev less x l) (x :: l) := by
  induction l with
  | nil => exact List.Perm.refl _
  | cons y ys ih =>
    unfold insertRev
    by_cases h : less x y = true
    · rw [if_pos h]
      exact List.Perm.trans (List.Perm.cons y ih) (List.Perm.swap x y ys)
    · rw [if_neg h]

/-- Folding `insertRev` over a list permutes it onto the accumulator. -/
theorem foldl_insertRev_perm (less : Key → Key → Bool) (l acc : List Key) :
    List.Perm (l.foldl (fun a x => insertRev less x a) acc) (l ++ acc) := by
  induction l generalizing acc with
  | nil => exact List.Perm.refl _
  | cons x l ih =>
    simp only [List.foldl_cons, List.cons_append]
    have h₁ := ih (insertRev less x acc)
    have h₂ := List.Perm.append_left l (insertRev_perm less x acc)
    exact List.Perm.trans h₁ (List.Perm.trans h₂ List.perm_middle)

/-- Go's stable insertion sort returns a permutation of its input. -/
theorem insertionSortGo_perm (less : Key → Key → Bool) (l : List Key) :
    List.Perm (insertionSortGo less l) l := by
  unfold insertionSortGo
  have h₁ := List.reverse_perm (l.foldl (fun acc x => insertRev less x acc) [])
  have h₂ := foldl_insertRev_perm less l []
  simpa using List.Perm.trans h₁ h₂

/-- A nonempty string has positive length. -/
theorem strLength_pos_of_ne (t : String) (h : t ≠ "") : 0 < t.length := by
  cases t with
  | mk d =>
    cases d with
    | nil => exact absurd rfl h
    | cons c cs => simp [String.length]

/-- Filtering twice with the same predicate equals filtering once. -/
theorem filter_idem {α : Type} (p : α → Bool) (l : List α) :
    (l.filter p).filter p = l.filter p := by
  induction l with
  | nil => rfl
  | cons x l ih =>
    rw [List.filter_cons]
    by_cases h : p x = true
    · rw [if_pos h, List.filter_cons, if_pos h, ih]
    · rw [if_neg h, ih]

/-- When no event has the coverage shape, the coverage scan loop yields the
empty string. -/
theorem findCovLoop_of_none (es : Events) (h : ∀ e ∈ es, covPattern e = false) :
    Events.FindCovLoop es = "" := by
  induction es with
  | nil => rfl
  | cons e rest ih =>
    unfold Events.FindCovLoop
    by_cases ha : e.Action ≠ ActionOutput
    · rw [if_pos ha]
      exact ih (fun x hx => h x (List.mem_cons_of_mem _ hx))
    · rw [if_neg ha]
      push_neg at ha
      have hcp := h e (List.mem_cons_self _ _)
      rw [if_neg ?_]
      · exact ih (fun x hx => h x (List.mem_cons_of_mem _ hx))
      · intro hps
        rw [covPattern, ha] at hcp
        simp [hps] at hcp

/-- The coverage scan loop extracts the percentage of the first event with
the coverage shape. -/
theorem findCovLoop_of_first (es : Events) (ec : Event)
    (hfind : es.find? covPattern = some ec) :
    Events.FindCovLoop es =
      trimSpace (trimSuffixStr (trimPrefixStr (trimSpace ec.Output) ("coverage:"))
        ("of statements")) := by
  induction es with
  | nil => simp [List.find?] at hfind
  | cons e rest ih =>
    by_cases hcp : covPattern e = true
    · rw [List.find?_cons_of_pos _ hcp] at hfind
      have hec : e = ec := by simpa using hfind
      subst hec
      have ha : e.Action = ActionOutput := by
        by_contra hne
        rw [covPattern] at hcp
        simp [hne] at hcp
      have hps : (strHasPrefix (trimSpace e.Output) ("coverage: ") &&
          strHasSuffix (trimSpace e.Output) (" of statements")) = true := by
        rw [covPattern, ha] at hcp
        simpa [Bool.and_assoc] using hcp
      unfold Events.FindCovLoop
      rw [if_neg (by simp [ha]), if_pos hps]
    · rw [List.find?_cons_of_neg _ hcp] at hfind
      unfold Events.FindCovLoop
      by_cases ha : e.Action ≠ ActionOutput
      · rw [if_pos ha]
        exact ih hfind
      · rw [if_neg ha]
        push_neg at ha
        rw [if_neg ?_]
        · exact ih hfind
        · intro hps
          apply hcp
          rw [covPattern, ha]
          simpa [Bool.and_assoc] using hps

/-- The `scanStep` of the stream driver preserves the invariant that the
immediate-print log has no duplicates and only logs marked keys. -/
theorem scanStep_inv (results : Statuses) (st : ScanState) (e : Event)
    (hnd : st.prints.Nodup) (hsub : ∀ k ∈ st.prints, k ∈ st.printed) :
    (scanStep results st e).prints.Nodup ∧
    ∀ k ∈ (scanStep results st e).prints, k ∈ (scanStep results st e).printed := by
  unfold scanStep
  by_cases h : ¬ (Event.Key e ∈ st.printed) ∧ Statuses.HasAction results e.Action = true
  · rw [if_pos h]
    have hnotin : Event.Key e ∉ st.prints := fun hin => h.1 (hsub _ hin)
    constructor
    · show (st.prints ++ [Event.Key e]).Nodup
      rw [List.nodup_append]
      exact ⟨hnd, List.nodup_singleton _, by
        intro k hk hk1
        rw [List.mem_singleton] at hk1
        exact hnotin (hk1 ▸ hk)⟩
    · intro k hk
      show k ∈ Event.Key e :: st.printed
      rcases List.mem_append.mp hk with hk | hk
      · exact List.mem_cons_of_mem _ (hsub k hk)
      · rw [List.mem_singleton] at hk
        exact hk ▸ List.mem_cons_self _ _
  · rw [if_neg h]
    exact ⟨hnd, hsub⟩

/-- The scanning-loop invariant propagated through any event arrivals. -/
theorem scan_inv (results : Statuses) (events : List Event) :
    ∀ st : ScanState, st.prints.Nodup → (∀ k ∈ st.prints, k ∈ st.printed) →
      (events.foldl (scanStep results) st).prints.Nodup ∧
      ∀ k ∈ (events.foldl (scanStep results) st).prints,
        k ∈ (events.foldl (scanStep results) st).printed := by
  induction events with
  | nil => exact fun st hnd hsub => ⟨hnd, hsub⟩
  | cons e evs ih =>
    intro st hnd hsub
    simp only [List.foldl_cons]
    have hstep := scanStep_inv results st e hnd hsub
    exact ih (scanStep results st e) hstep.1 hstep.2

/-- A list is a textual head segment of itself followed by anything. -/
theorem listIsPrefix_append_self (n b : List Char) : listIsPrefix n (n ++ b) = true := by
  induction n with
  | nil => rfl
  | cons c t ih => simp [listIsPrefix, ih]

/-- A head segment occurs as a contiguous segment. -/
theorem listHasInfix_of_head (n hay : List Char) (h : listIsPrefix n hay = true) :
    listHasInfix n hay = true := by
  cases hay with
  | nil =>
    cases n with
    | nil => rfl
    | cons c t => simp [listIsPrefix] at h
  | cons c t => simp [listHasInfix, h]

/-- A needle placed between two segments occurs in the concatenation. -/
theorem listHasInfix_append (n a b : List Char) : listHasInfix n (a ++ n ++ b) = true := by
  induction a with
  | nil => simpa using listHasInfix_of_head n (n ++ b) (listIsPrefix_append_self n b)
  | cons c t ih =>
    simp only [List.cons_append]
    rw [listHasInfix]
    simp only [List.append_assoc] at ih ⊢
    simp [ih]

/-- A string of the form `a ++ n ++ b` contains `n`. -/
theorem strContainsSub_append (a n b : String) : strContainsSub (a ++ n ++ b) n = true := by
  unfold strContainsSub
  have h : (a ++ n ++ b).data = a.data ++ n.data ++ b.data := by
    rw [strData_append, strData_append]
  rw [h]
  exact listHasInfix_append n.data a.data b.data

/-! ## Claims -/

/-- C1 (counterexample): in the grouped summary that the driver actually
renders (`TestStorage.PrintSummary`) for the scenario store with test units
`a.T1`, `a.T2` and package unit `a`, the line for package `a` is printed
(`a` is among the ordered keys of the pass-filtered store) and is exactly
`  PASS a` with no `<2 tests>` count — no test count at all. -/
theorem claim_C1_counterexample :
    (⟨"a", ""⟩ : Key) ∈ TestStorage.OrderedKeys (TestStorage.FindByAction scenarioStore ActionPass) ∧
    summaryLine StatusPass (TestStorage.FindByAction scenarioStore ActionPass) ⟨"a", ""⟩ = "  PASS a\n" ∧
    strContainsSub (summaryLine StatusPass (TestStorage.FindByAction scenarioStore ActionPass) ⟨"a", ""⟩)
      ("<2 tests>") = false ∧
    strContainsSub (summaryLine StatusPass (TestStorage.FindByAction scenarioStore ActionPass) ⟨"a", ""⟩)
      (" tests>") = false := by
  decide

/-- C1 (amended): the `<N tests>` count on package-level summary lines is
produced by the short-summary renderer `TestStorage.PrintShortSummary`, not
by the grouped-summary renderer `TestStorage.PrintSummary` that the driver
calls.  Every line of the short summary carries `<N tests>` with `N` the
number of test units of that line's package, and for the scenario store its
line for package `a` shows `<2 tests>`. -/
theorem claim_C1_amended :
    (∀ (status : Status) (ts : TestStorage) (key : Key),
      strContainsSub (shortSummaryLine status ts key)
        ("<" ++ toString (TestStorage.CountTests (TestStorage.FindPackageTests ts key.Package)) ++
          " tests>") = true) ∧
    strContainsSub (shortSummaryLine StatusPass scenarioStore ⟨"a", ""⟩) ("<2 tests>") = true := by
  constructor
  · intro status ts key
    have h := strContainsSub_append
      (padStart6 (statusName status) ++ " " ++ key.Package ++ elapsedTag (lookupEvents ts key) ++ "   ")
      ("<" ++ toString (TestStorage.CountTests (TestStorage.FindPackageTests ts key.Package)) ++ " tests>")
      (notestsTag (lookupEvents ts key) ++ coverageTag (lookupEvents ts key) ++ "\n")
    have heq : shortSummaryLine status ts key =
        (padStart6 (statusName status) ++ " " ++ key.Package ++ elapsedTag (lookupEvents ts key) ++ "   ") ++
        ("<" ++ toString (TestStorage.CountTests (TestStorage.FindPackageTests ts key.Package)) ++ " tests>") ++
        (notestsTag (lookupEvents ts key) ++ coverageTag (lookupEvents ts key) ++ "\n") := by
      apply strExt
      simp [shortSummaryLine, strData_append, List.append_assoc]
    rw [heq]
    exact h
  · decide

/-- C2: the derived status of any event sequence equals the status of the
first event whose action is terminal (fail, pass, skip, bench) — in the
source a terminal status string is its action string — and `none` when no
such event exists; as a Lean function it is by construction pure and
deterministic in the sequence. -/
theorem claim_C2 (es : Events) : Events.Status es = specStatus es :=
  status_find_eq es

/-- C3: the compacted sequence is always a sublist (same events, same
relative order, possibly fewer) of the original, and above the verbosity
threshold (verbosity at least 4) the compaction stage of the detail
renderer returns the sequence unmodified. -/
theorem claim_C3 (es : Events) (v : Int) :
    List.Sublist (Events.Compact es) es ∧ (3 < v → compactStage v es = es) := by
  constructor
  · exact List.filter_sublist es
  · intro hv
    unfold compactStage
    rw [if_neg (by omega)]

/-- Witness for C3 at the empty sequence and verbosity 4. -/
theorem claim_C3_witness :
    List.Sublist (Events.Compact []) [] ∧ compactStage 4 [] = [] :=
  ⟨(claim_C3 [] 4).1, (claim_C3 [] 4).2 (by norm_num)⟩

/-- C4 (counterexample): `OrderedKeys` sorts with a comparator that is not
transitive (`a.T` before `a` by the same-package rule, `a` before `a-b` and
`a-b` before `a.T` by natural order), so two stores with the same bindings
— the same Go map enumerated in two iteration orders — yield different
orderings, and in the second ordering the package-level key `a` precedes
its own per-test key `a.T`. -/
theorem claim_C4_counterexample :
    List.Perm
      ([(⟨"a", "T"⟩, []), (⟨"a", ""⟩, []), (⟨"a-b", ""⟩, [])] : TestStorage)
      ([(⟨"a-b", ""⟩, []), (⟨"a", ""⟩, []), (⟨"a", "T"⟩, [])] : TestStorage) ∧
    TestStorage.OrderedKeys [(⟨"a", "T"⟩, []), (⟨"a", ""⟩, []), (⟨"a-b", ""⟩, [])] =
      [⟨"a", "T"⟩, ⟨"a", ""⟩, ⟨"a-b", ""⟩] ∧
    TestStorage.OrderedKeys [(⟨"a-b", ""⟩, []), (⟨"a", ""⟩, []), (⟨"a", "T"⟩, [])] =
      [⟨"a", ""⟩, ⟨"a-b", ""⟩, ⟨"a", "T"⟩] := by
  decide

/-- C4 (amended): what does hold of `OrderedKeys`.  The comparator itself
always ranks a per-test key before the package-level key of the same
package and never the reverse; the output is always a permutation of the
store's keys; and on the scenario key set `a.T1, a.T2, a` every enumeration
order of the store yields the same ordering, tests before the package
entry.  Because the comparator is not transitive and Go map enumeration
order is unspecified, the full ordering is in general only deterministic
relative to one enumeration order, not across calls. -/
theorem claim_C4_amended :
    (∀ p t : String, t ≠ "" →
      keyLess ⟨p, t⟩ ⟨p, ""⟩ = true ∧ keyLess ⟨p, ""⟩ ⟨p, t⟩ = false) ∧
    (∀ ts : TestStorage, List.Perm (TestStorage.OrderedKeys ts) (TestStorage.keys ts)) ∧
    (∀ l ∈ ([[⟨"a", "T1"⟩, ⟨"a", "T2"⟩, ⟨"a", ""⟩],
             [⟨"a", "T1"⟩, ⟨"a", ""⟩, ⟨"a", "T2"⟩],
             [⟨"a", "T2"⟩, ⟨"a", "T1"⟩, ⟨"a", ""⟩],
             [⟨"a", "T2"⟩, ⟨"a", ""⟩, ⟨"a", "T1"⟩],
             [⟨"a", ""⟩, ⟨"a", "T1"⟩, ⟨"a", "T2"⟩],
             [⟨"a", ""⟩, ⟨"a", "T2"⟩, ⟨"a", "T1"⟩]] : List (List Key)),
      insertionSortGo keyLess l = [⟨"a", "T1"⟩, ⟨"a", "T2"⟩, ⟨"a", ""⟩]) := by
  refine ⟨?_, ?_, ?_⟩
  · intro p t ht
    constructor
    · unfold keyLess
      rw [if_pos ⟨rfl, Or.inr rfl⟩]
      rw [decide_eq_true_eq]
      exact strLength_pos_of_ne t ht
    · unfold keyLess
      rw [if_pos ⟨rfl, Or.inl rfl⟩]
      rw [decide_eq_false_iff_not]
      exact Nat.not_lt_zero t.length
  · intro ts
    exact insertionSortGo_perm keyLess (TestStorage.keys ts)
  · decide

/-- Witness for C4 (amended) at concrete keys and one concrete enumeration
order of the scenario keys. -/
theorem claim_C4_witness :
    (keyLess ⟨"a", "T"⟩ ⟨"a", ""⟩ = true ∧ keyLess ⟨"a", ""⟩ ⟨"a", "T"⟩ = false) ∧
    insertionSortGo keyLess [⟨"a", ""⟩, ⟨"a", "T1"⟩, ⟨"a", "T2"⟩] =
      [⟨"a", "T1"⟩, ⟨"a", "T2"⟩, ⟨"a", ""⟩] :=
  ⟨claim_C4_amended.1 "a" "T" (by decide),
   claim_C4_amended.2.2 [⟨"a", ""⟩, ⟨"a", "T1"⟩, ⟨"a", "T2"⟩] (by decide)⟩

/-- C5: across one run of the scanning loop, each key is printed
immediately at most once: however many events arrive for a key, the
immediate-print log of the final scan state counts the key at most once. -/
theorem claim_C5 (results : Statuses) (events : List Event) (k : Key) :
    ((scanRun results events).prints.count k) ≤ 1 := by
  have h := scan_inv results events ⟨[], [], []⟩ List.nodup_nil (by intro k hk; cases hk)
  exact List.nodup_iff_count_le_one.mp h.1 k

/-- C6 (counterexample): a package-level sequence can contain an output
event whose trimmed text is `coverage: 87.3% of statements` and still get a
different extraction result, because `FindCoverage` returns the first
matching coverage line: with a `10.0%` line first, extraction returns
`10.0%`, not `87.3%`. -/
theorem claim_C6_counterexample :
    (covEv "coverage: 87.3% of statements\n") ∈ twoCovEvents ∧
    (covEv "coverage: 87.3% of statements\n").Action = ActionOutput ∧
    trimSpace (covEv "coverage: 87.3% of statements\n").Output = "coverage: 87.3% of statements" ∧
    (covEv "coverage: 10.0% of statements\n").Package ≠ "" ∧
    (covEv "coverage: 10.0% of statements\n").Test = "" ∧
    Events.FindCoverage twoCovEvents = "10.0%" ∧
    Events.FindCoverage twoCovEvents ≠ "87.3%" := by
  decide

/-- C6 (amended): coverage extraction keys on the first event with the
coverage shape.  For every sequence with no coverage-shaped output event
the extraction returns the empty string; and for every package-level
sequence whose first coverage-shaped output event has trimmed text
`coverage: 87.3% of statements`, the extraction returns `87.3%`. -/
theorem claim_C6_amended (es : Events) :
    ((∀ e ∈ es, covPattern e = false) → Events.FindCoverage es = "") ∧
    (∀ e₀ rest ec, es = e₀ :: rest → e₀.Package ≠ "" → e₀.Test = "" →
      es.find? covPattern = some ec →
      trimSpace ec.Output = "coverage: 87.3% of statements" →
      Events.FindCoverage es = "87.3%") := by
  constructor
  · intro h
    cases es with
    | nil => rfl
    | cons e rest =>
      simp only [Events.FindCoverage]
      by_cases hg : e.Package = "" ∨ e.Test ≠ ""
      · rw [if_pos hg]
      · rw [if_neg hg]
        exact findCovLoop_of_none _ h
  · intro e₀ rest ec hes hp ht hfind hout
    subst hes
    simp only [Events.FindCoverage]
    rw [if_neg (by simp [hp, ht]), findCovLoop_of_first _ _ hfind, hout]
    decide

/-- Witness for C6 (amended) on a sequence whose single line is the 87.3%
coverage line. -/
theorem claim_C6_witness : Events.FindCoverage covOnlyEvents = "87.3%" :=
  (claim_C6_amended covOnlyEvents).2 (covEv "coverage: 87.3% of statements\n") []
    (covEv "coverage: 87.3% of statements\n") rfl (by decide) rfl (by decide) (by decide)

/-- C7: filtering by an action set twice equals filtering once; and for one
action, the key sets of `FindByAction` and `FilterAction` are disjoint
(over a store with no duplicate keys, as a Go map guarantees) and their
union is exactly the store's key set. -/
theorem claim_C7 (ts : TestStorage) (A : List Action) (a : Action) :
    TestStorage.FilterAction (TestStorage.FilterAction ts A) A = TestStorage.FilterAction ts A ∧
    ((TestStorage.keys ts).Nodup → ∀ k,
      ¬(k ∈ TestStorage.keys (TestStorage.FindByAction ts a) ∧
        k ∈ TestStorage.keys (TestStorage.FilterAction ts [a]))) ∧
    (∀ k, k ∈ TestStorage.keys ts ↔
      k ∈ TestStorage.keys (TestStorage.FindByAction ts a) ∨
      k ∈ TestStorage.keys (TestStorage.FilterAction ts [a])) := by
  refine ⟨?_, ?_, ?_⟩
  · exact filter_idem _ ts
  · intro hnd k hk
    obtain ⟨h1, h2⟩ := hk
    obtain ⟨kv₁, hkv₁, hfst₁⟩ := List.mem_map.mp h1
    obtain ⟨kv₂, hkv₂, hfst₂⟩ := List.mem_map.mp h2
    obtain ⟨hm₁, hp₁⟩ := List.mem_filter.mp hkv₁
    obtain ⟨hm₂, hp₂⟩ := List.mem_filter.mp hkv₂
    have heq : kv₁ = kv₂ :=
      List.inj_on_of_nodup_map hnd hm₁ hm₂ (hfst₁.trans hfst₂.symm)
    subst heq
    obtain ⟨e, he, hea⟩ := List.any_eq_true.mp hp₁
    rw [Bool.not_eq_eq_eq_not, Bool.not_true, List.any_eq_false] at hp₂
    exact hp₂ e he (by simp [of_decide_eq_true hea])
  · intro k
    constructor
    · intro hk
      obtain ⟨kv, hm, hfst⟩ := List.mem_map.mp hk
      by_cases hb : (kv.2.any fun e => decide (e.Action = a)) = true
      · exact Or.inl (List.mem_map.mpr ⟨kv, List.mem_filter.mpr ⟨hm, hb⟩, hfst⟩)
      · refine Or.inr (List.mem_map.mpr ⟨kv, List.mem_filter.mpr ⟨hm, ?_⟩, hfst⟩)
        rw [Bool.not_eq_eq_eq_not, Bool.not_true, List.any_eq_false]
        intro e he hmem
        have : e.Action = a := by simpa using of_decide_eq_true hmem
        exact hb (List.any_eq_true.mpr ⟨e, he, by simp [this]⟩)
    · intro hk
      rcases hk with hk | hk <;>
        obtain ⟨kv, hm, hfst⟩ := List.mem_map.mp hk <;>
        exact List.mem_map.mpr ⟨kv, (List.mem_filter.mp hm).1, hfst⟩

/-- Witness for C7 on a one-unit store with a pass event. -/
theorem claim_C7_witness :
    ¬((⟨"p", "T"⟩ : Key) ∈ TestStorage.keys
        (TestStorage.FindByAction [(⟨"p", "T"⟩, [mkEv "pass" "p" "T"])] ActionPass) ∧
      (⟨"p", "T"⟩ : Key) ∈ TestStorage.keys
        (TestStorage.FilterAction [(⟨"p", "T"⟩, [mkEv "pass" "p" "T"])] [ActionPass])) :=
  (claim_C7 [(⟨"p", "T"⟩, [mkEv "pass" "p" "T"])] [ActionPass] ActionPass).2.1
    (by decide) ⟨"p", "T"⟩

/-- C8: when the supervised process exits with a non-zero status, the core
terminates with that same status: the `ExitError` built at the end of `run`
carries the exit code and `main` passes it to `os.Exit` unchanged. -/
theorem claim_C8 (code : Int) (_h : code ≠ 0) :
    coreExitCode (WaitResult.exitErr true code) = code := rfl

/-- Witness for C8 at exit status 2. -/
theorem claim_C8_witness :
    (2 : Int) ≠ 0 ∧ coreExitCode (WaitResult.exitErr true 2) = 2 :=
  ⟨by decide, claim_C8 2 (by decide)⟩

/-- C9: compaction preserves the derived status: the removal condition only
matches run/cont/pause and output events, never a terminal event, so the
first terminal event — and with it the status — is unchanged. -/
theorem claim_C9 (es : Events) : Events.Status (Events.Compact es) = Events.Status es := by
  rw [status_find_eq, status_find_eq]
  unfold specStatus
  have h : (Events.Compact es).find? (fun e => decide (e.Action ∈ endingActions)) =
      es.find? (fun e => decide (e.Action ∈ endingActions)) := by
    unfold Events.Compact
    apply find?_filter_imp
    intro e he
    rw [noise_not_ending _ _ _ _ (of_decide_eq_true he)]
    rfl
  rw [h]

/-- C10: a unit in the skip summary's input that is flagged as a package
without test files appears in the rendered store exactly when verbosity is
at least 4; at verbosity at most 3 `FilterNotests` removes it. -/
theorem claim_C10 (v : Int) (tests : TestStorage) (k : Key) (es : Events)
    (h1 : (k, es) ∈ TestStorage.FindByAction tests ActionSkip)
    (h2 : Events.IsPackageWithoutTest es = true) :
    ((k, es) ∈ skipSummaryInput v tests ↔ 4 ≤ v) := by
  unfold skipSummaryInput
  by_cases hv : v ≤ 3
  · rw [if_pos hv]
    constructor
    · intro hmem
      have hkeep := (List.mem_filter.mp hmem).2
      rw [h2] at hkeep
      simp at hkeep
    · intro h4
      exact absurd h4 (by omega)
  · rw [if_neg hv]
    constructor
    · intro _
      omega
    · intro _
      exact h1

/-- Witness for C10: the skipped no-test package is present in the
verbosity-4 skip summary input. -/
theorem claim_C10_witness :
    ((⟨"p", ""⟩ : Key), notestsEvents) ∈ skipSummaryInput 4 notestsStore :=
  (claim_C10 4 notestsStore ⟨"p", ""⟩ notestsEvents (by decide) (by decide)).mpr (by norm_num)

end Tgo
